import Mathlib

/-!
Verification of the MindMenders-AI sentiment service (training pipeline in
`train_model.py` and the serving endpoint in `app.py`), shallowly embedded
in Lean 4. Machine floats of the source are modelled as rationals; the
ambient NumPy random draws are passed as explicit arguments; text is plain
`String`.
-/

set_option maxRecDepth 100000

namespace SentimentService

/-- Splits a character list on runs of spaces, dropping empty fragments;
`acc` is the reversed current word. -/
def splitWordsAux : List Char → List Char → List String
  | [], [] => []
  | [], acc => [String.mk acc.reverse]
  | c :: cs, acc =>
    if c = ' ' then
      match acc with
      | [] => splitWordsAux cs []
      | _ => String.mk acc.reverse :: splitWordsAux cs []
    else splitWordsAux cs (c :: acc)

/-- Python `str.split()` restricted to the space character: splits on runs
of spaces and drops empty fragments (normalized texts in this pipeline are
single-space separated, so this coincides with the source's `text.split()`). -/
def pyWords (s : String) : List String :=
  splitWordsAux s.data []

/-- In-place swap of positions `i` and `i+1` of a list, as done by
`words_copy[i], words_copy[i+1] = words_copy[i+1], words_copy[i]`.
Out-of-range indices leave the list unchanged. -/
def swapAt : List α → Nat → List α
  | a :: b :: rest, 0 => b :: a :: rest
  | a :: rest, n + 1 => a :: swapAt rest n
  | l, _ => l

/-- The adjacent-swap pass of `augment_text` (train_model.py lines 160-164):
scan positions `0 .. len-2` left to right over one mutating working copy;
at position `i`, when the random draw fires (`np.random.random() < 0.3`,
modelled by `draw i = true`), swap the words at `i` and `i+1`. -/
def swapPass (draw : Nat → Bool) (words : List String) : List String :=
  (List.range (words.length - 1)).foldl
    (fun acc i => if draw i then swapAt acc i else acc) words

/-- The word-drop variant of `augment_text` (lines 154-157):
`' '.join(words[:remove_idx] + words[remove_idx+1:])`. -/
def wordDropVariant (removeIdx : Nat) (words : List String) : String :=
  String.intercalate " " (words.take removeIdx ++ words.drop (removeIdx + 1))

/-- The adjacent-swap variant of `augment_text` (lines 159-165):
`' '.join(words_copy)` after the swap pass. -/
def adjSwapVariant (draw : Nat → Bool) (words : List String) : String :=
  String.intercalate " " (swapPass draw words)

/-- `augment_text` (train_model.py lines 137-167). The NumPy draws are
explicit: `removeIdx` is the value of `np.random.randint(0, len(words))`
and `draw i` tells whether the draw at position `i` of the swap pass was
below 0.3. Texts of at most 3 words are returned unchanged; the word-drop
variant is only appended when the word count exceeds 4; the adjacent-swap
variant is always appended for texts of more than 3 words. -/
def augment_text (removeIdx : Nat) (draw : Nat → Bool) (text : String) : List String :=
  let words := pyWords text
  if words.length ≤ 3 then
    [text]
  else
    let augmented := [text]
    let augmented :=
      if words.length > 4 then augmented ++ [wordDropVariant removeIdx words] else augmented
    augmented ++ [adjSwapVariant draw words]

/-- The augmentation step of `load_and_preprocess_data` (lines 199-202):
every variant of a row's text is paired with that row's unchanged emotion
label (`augmented_emotions.extend([emotion] * len(aug_texts))`). -/
def augmentWithLabel (removeIdx : Nat) (draw : Nat → Bool)
    (text emotion : String) : List (String × String) :=
  (augment_text removeIdx draw text).map (fun t => (t, emotion))

example : augment_text 0 (fun _ => false) "a b c" = ["a b c"] := by decide
example : (augment_text 0 (fun _ => false) "a b c d").length = 2 := by decide
example : augment_text 1 (fun i => i = 0) "a b c d e" =
    ["a b c d e", "a c d e", "b a c d e"] := by decide

/-! ### Serving endpoint (app.py) -/

/-- The confidence threshold read in `analyze_sentiment` (app.py line 120):
`float(os.getenv('SUICIDAL_CONFIDENCE_THRESHOLD', 0.75))`. The environment
override, when set, is `some q`; otherwise the default 0.75 applies.
Float values are modelled as rationals. -/
def suicidalConfidenceThreshold (env : Option ℚ) : ℚ :=
  env.getD (75 / 100)

/-- The escalation flag computed in `analyze_sentiment` (app.py line 124):
`predicted_emotion == 'suicidal' and confidence > SUICIDAL_CONFIDENCE_THRESHOLD`. -/
def needs_immediate_help (emotion : String) (confidence : ℚ) (env : Option ℚ) : Bool :=
  emotion == "suicidal" && decide (confidence > suicidalConfidenceThreshold env)

/-! ### Label vocabulary (train_model.py lines 313-320) -/

/-- Strict code-point comparison of characters. -/
def charLt (a b : Char) : Bool :=
  a.toNat < b.toNat

/-- Lexicographic (code-point) comparison of character lists. -/
def charsLe : List Char → List Char → Bool
  | [], _ => true
  | _ :: _, [] => false
  | a :: as, b :: bs => if a = b then charsLe as bs else charLt a b

/-- Lexicographic (code-point) order on strings, the order in which
NumPy / scikit-learn sort string arrays. -/
def strLe (a b : String) : Prop :=
  charsLe a.data b.data = true

instance : DecidableRel strLe :=
  fun _ _ => inferInstanceAs (Decidable (_ = true))

/-- `LabelEncoder.fit_transform` class extraction: the distinct label
strings in sorted (lexicographic) order, as produced by scikit-learn's
`label_encoder.classes_` (`numpy.unique` of the labels); the integer id
of a label is its index in this list. -/
def labelEncoderClasses (labels : List String) : List String :=
  labels.dedup.insertionSort strLe

/-! ### Checkpoint selector (train_model.py lines 381-399) -/

/-- One run of the per-epoch checkpoint decisions: given the running
`best_accuracy` (initialized to 0 by the caller) and the sequence of epoch
validation accuracies, record for each epoch whether the
`if val_acc > best_accuracy` branch fired (persisting model and tokenizer
and updating `best_accuracy`). -/
def persistFlags : ℚ → List ℚ → List Bool
  | _, [] => []
  | best, a :: rest =>
    if best < a then true :: persistFlags a rest else false :: persistFlags best rest

/-- The value of `best_accuracy` after processing the accuracy sequence. -/
def bestAfter : ℚ → List ℚ → ℚ
  | best, [] => best
  | best, a :: rest => if best < a then bestAfter a rest else bestAfter best rest

/-! ### Learning-rate schedule (train_model.py lines 363-379) -/

/-- `NUM_EPOCHS` (train_model.py line 70). -/
def NUM_EPOCHS : Nat := 10

/-- `warmup_steps = len(train_loader) * 2` (line 363). -/
def warmupSteps (stepsPerEpoch : Nat) : Nat := stepsPerEpoch * 2

/-- `total_steps = len(train_loader) * NUM_EPOCHS` (line 364). -/
def totalSteps (stepsPerEpoch : Nat) : Nat := stepsPerEpoch * NUM_EPOCHS

/-- Modelled from the spec: the multiplier of the external library's
`get_scheduler(name="linear", ...)` schedule, whose implementation is not
part of this repository — linear rise from 0 at step 0 to 1 at
`warmup`, then linear decay to 0 at `total` (clamped at 0 past `total`). -/
def lrMultiplier (warmup total step : Nat) : ℚ :=
  if step < warmup then (step : ℚ) / max 1 (warmup : ℚ)
  else max 0 (((total : ℚ) - (step : ℚ)) / max 1 ((total : ℚ) - (warmup : ℚ)))

/-- Optimizer / scheduler call counters of the training loop. -/
structure StepCounters where
  optSteps : Nat
  schedSteps : Nat
  deriving DecidableEq, Repr

/-- The per-batch tail of the `train_epoch` body (lines 253-255): exactly
one `optimizer.step()` followed by exactly one `scheduler.step()`. -/
def batchStep (c : StepCounters) : StepCounters :=
  ⟨c.optSteps + 1, c.schedSteps + 1⟩

/-- The optimizer/scheduler calls made by one `train_epoch` over
`nBatches` minibatches: the per-batch body iterated once per batch. -/
def trainEpochSteps (nBatches : Nat) (c : StepCounters) : StepCounters :=
  batchStep^[nBatches] c

/-! ### Fine-tuning policy and optimizer groups (train_model.py lines 333-373) -/

/-- One model parameter: its dotted name as reported by
`model.named_parameters()` and its `requires_grad` flag. -/
structure NamedParam where
  name : String
  requires_grad : Bool
  deriving DecidableEq, Repr

/-- `BertForSequenceClassification` as the freezing code traverses it:
the `bert.embeddings` sub-module, the list `bert.encoder.layer` of encoder
blocks, the `bert.pooler` sub-module, and the `classifier` head. -/
structure BertModel where
  embeddings : List NamedParam
  layers : List (List NamedParam)
  pooler : List NamedParam
  classifier : List NamedParam
  deriving DecidableEq, Repr

/-- `for param in module.parameters(): param.requires_grad = b`. -/
def setGrad (b : Bool) (ps : List NamedParam) : List NamedParam :=
  ps.map fun p => { p with requires_grad := b }

/-- The freezing policy (lines 333-339): every embedding parameter gets
`requires_grad = False`; enumerating the encoder blocks, blocks with index
`< 10` get `requires_grad = False`; nothing else is touched. -/
def fineTunePolicy (m : BertModel) : BertModel :=
  { m with
    embeddings := setGrad false m.embeddings
    layers := m.layers.enum.map fun il => if il.1 < 10 then setGrad false il.2 else il.2 }

/-- `model.named_parameters()`: embeddings, then the encoder blocks in
order, then the pooler, then the classifier head. -/
def namedParameters (m : BertModel) : List NamedParam :=
  m.embeddings ++ m.layers.flatten ++ m.pooler ++ m.classifier

/-- Boolean test that `needle` is a leading run of `hay`. -/
def charsPref : List Char → List Char → Bool
  | [], _ => true
  | _ :: _, [] => false
  | a :: as, b :: bs => a == b && charsPref as bs

/-- Boolean test that `needle` occurs contiguously inside `hay`. -/
def charsSub (needle : List Char) : List Char → Bool
  | [] => charsPref needle []
  | c :: cs => charsPref needle (c :: cs) || charsSub needle cs

/-- Python's `sub in s` substring containment on strings. -/
def pyIn (needle hay : String) : Bool :=
  charsSub needle.data hay.data

/-- One entry of `optimizer_grouped_parameters`. -/
structure ParamGroup where
  params : List NamedParam
  lr : ℚ
  weight_decay : ℚ
  deriving DecidableEq, Repr

/-- One group: `[p for n, p in model.named_parameters() if needle in n]`
with its learning rate and weight decay. -/
def groupFor (m : BertModel) (needle : String) (lr wd : ℚ) : ParamGroup :=
  ⟨(namedParameters m).filter (fun p => pyIn needle p.name), lr, wd⟩

/-- `optimizer_grouped_parameters` (lines 367-371): classifier head at
lr 2e-4, block 11 at lr 1e-4, block 10 at lr 5e-5, each with weight
decay 0.01. -/
def optimizerGroupedParameters (m : BertModel) : List ParamGroup :=
  [groupFor m "classifier" (2 / 10000) (1 / 100),
   groupFor m "layer.11" (1 / 10000) (1 / 100),
   groupFor m "layer.10" (5 / 100000) (1 / 100)]

/-- Parameter names of the `bert.embeddings` sub-module (relative). -/
def embSubnames : List String :=
  ["word_embeddings.weight", "position_embeddings.weight",
   "token_type_embeddings.weight", "LayerNorm.weight", "LayerNorm.bias"]

/-- Parameter names of one encoder block (relative). -/
def layerSubnames : List String :=
  ["attention.self.query.weight", "attention.self.query.bias",
   "attention.self.key.weight", "attention.self.key.bias",
   "attention.self.value.weight", "attention.self.value.bias",
   "attention.output.dense.weight", "attention.output.dense.bias",
   "attention.output.LayerNorm.weight", "attention.output.LayerNorm.bias",
   "intermediate.dense.weight", "intermediate.dense.bias",
   "output.dense.weight", "output.dense.bias",
   "output.LayerNorm.weight", "output.LayerNorm.bias"]

/-- A module's parameters from its name prefix and relative names; every
parameter of the freshly loaded pretrained model has `requires_grad = True`. -/
def mkParams (pre : String) (subs : List String) : List NamedParam :=
  subs.map fun s => ⟨pre ++ s, true⟩

/-- Modelled from the spec: the pretrained 12-block encoder with an
embedding sub-module and a classification head loaded at line 325. The
external library's `bert-base-uncased` `BertForSequenceClassification`
(not part of this repository) has exactly this published parameter layout:
`bert.embeddings.*`, `bert.encoder.layer.{0..11}.*`, `bert.pooler.dense.*`
and `classifier.*`, all initially trainable. -/
def bertBase : BertModel :=
  { embeddings := mkParams "bert.embeddings." embSubnames
    layers := (List.range 12).map fun i =>
      mkParams ("bert.encoder.layer." ++ toString i ++ ".") layerSubnames
    pooler := mkParams "bert.pooler." ["dense.weight", "dense.bias"]
    classifier := mkParams "classifier." ["weight", "bias"] }

/-- The model after the freezing policy of lines 333-339 ran on it. -/
def bertTuned : BertModel := fineTunePolicy bertBase

/-! ### Dataset loading (train_model.py lines 170-210, 298-434) -/

/-- One CSV row; a missing (NaN) field is `none`. -/
structure RawRow where
  text : Option String
  emotion : Option String

/-- A loaded dataframe: which of the two required columns exist, and the
rows. -/
structure RawDataset where
  hasTextCol : Bool
  hasEmotionCol : Bool
  rows : List RawRow

/-- `df.dropna(subset=['text', 'emotion'])` (line 187): keep exactly the
rows where both fields are present. -/
def dropna (rows : List RawRow) : List (String × String) :=
  rows.filterMap fun r =>
    match r.text, r.emotion with
    | some t, some e => some (t, e)
    | _, _ => none

/-- `load_and_preprocess_data` (lines 170-210). `normalize` stands for
`preprocess_text`, whose tokenizer and lemmatizer are external NLTK
collaborators; `rngRemove j` and `rngDraw j` are the NumPy draws consumed
while augmenting row `j`. Validates the required columns, drops rows with
a missing field, normalizes, drops rows whose cleaned text is empty, and
augments each surviving row, pairing every variant with the row's label. -/
def load_and_preprocess_data (normalize : String → String)
    (rngRemove : Nat → Nat) (rngDraw : Nat → Nat → Bool)
    (ds : RawDataset) : Except String (List (String × String)) :=
  if !(ds.hasTextCol && ds.hasEmotionCol) then
    .error "Dataset must contain columns: text, emotion"
  else
    let complete := dropna ds.rows
    let normalized := complete.map fun p => (normalize p.1, p.2)
    let nonempty := normalized.filter fun p => 0 < p.1.length
    .ok (nonempty.enum.flatMap fun jp =>
      augmentWithLabel (rngRemove jp.1) (rngDraw jp.1) jp.2.1 jp.2.2)

/-- Artifact writes of one run: the persisted label-vocabulary array
(`label_encoder_classes.npy`), the number of checkpoint saves under
`best_model/`, and whether `model_config.json` was written. -/
structure Artifacts where
  labelClasses : Option (List String)
  checkpointSaves : Nat
  configWritten : Bool
  deriving DecidableEq, Repr

/-- No artifact written at all. -/
def noArtifacts : Artifacts := ⟨none, 0, false⟩

/-- `train_sentiment_model` plus the `__main__` wrapper (lines 298-434),
tracked as far as artifact writes and the process exit code. An exception
raised by `load_and_preprocess_data` propagates out of
`train_sentiment_model` (which re-raises at line 417) to the `__main__`
handler, which exits with code 1 (line 434) before any artifact is
written. On a successful load the label vocabulary is persisted first
(line 319); the remaining work (external torch training and the later
writes) is abstracted by `trainRest`, giving the rest of the exit code
and artifacts. -/
def runTraining (normalize : String → String) (rngRemove : Nat → Nat)
    (rngDraw : Nat → Nat → Bool) (ds : RawDataset)
    (trainRest : List (String × String) → Nat × Artifacts) : Nat × Artifacts :=
  match load_and_preprocess_data normalize rngRemove rngDraw ds with
  | .error _ => (1, noArtifacts)
  | .ok pairs =>
    let rest := trainRest pairs
    (rest.1, { rest.2 with
      labelClasses := some (labelEncoderClasses (pairs.map Prod.snd)) })

/-! ## Theorems -/

theorem charsLe_total : ∀ x y : List Char, charsLe x y = true ∨ charsLe y x = true
  | [], _ => Or.inl rfl
  | _ :: _, [] => Or.inr rfl
  | a :: as, b :: bs => by
    by_cases hab : a = b
    · subst hab
      simpa [charsLe] using charsLe_total as bs
    · have hn : a.toNat ≠ b.toNat := fun h => hab (Char.eq_of_val_eq (UInt32.toNat.inj h))
      simp only [charsLe, if_neg hab, if_neg (Ne.symm hab), charLt, decide_eq_true_eq]
      omega

theorem charsLe_trans :
    ∀ x y z : List Char, charsLe x y = true → charsLe y z = true → charsLe x z = true
  | [], _, _, _, _ => rfl
  | _ :: _, [], _, h₁, _ => by simp [charsLe] at h₁
  | _ :: _, _ :: _, [], _, h₂ => by simp [charsLe] at h₂
  | a :: as, b :: bs, c :: cs, h₁, h₂ => by
    by_cases hab : a = b
    · subst hab
      by_cases hac : a = c
      · subst hac
        simp only [charsLe, if_pos rfl] at h₁ h₂ ⊢
        exact charsLe_trans as bs cs h₁ h₂
      · simp only [charsLe, if_pos rfl, if_neg hac] at h₁ h₂ ⊢
        exact h₂
    · by_cases hbc : b = c
      · subst hbc
        simp only [charsLe, if_neg hab] at h₁ ⊢
        exact h₁
      · have h₁' : a.toNat < b.toNat := by
          simpa [charsLe, if_neg hab, charLt] using h₁
        have h₂' : b.toNat < c.toNat := by
          simpa [charsLe, if_neg hbc, charLt] using h₂
        have hac : a ≠ c := by
          intro h; subst h; omega
        simp only [charsLe, if_neg hac, charLt, decide_eq_true_eq]
        omega

theorem charsLe_antisymm :
    ∀ x y : List Char, charsLe x y = true → charsLe y x = true → x = y
  | [], [], _, _ => rfl
  | [], _ :: _, _, h₂ => by simp [charsLe] at h₂
  | _ :: _, [], h₁, _ => by simp [charsLe] at h₁
  | a :: as, b :: bs, h₁, h₂ => by
    by_cases hab : a = b
    · subst hab
      simp only [charsLe, if_pos rfl] at h₁ h₂
      rw [charsLe_antisymm as bs h₁ h₂]
    · have h₁' : a.toNat < b.toNat := by
        simpa [charsLe, if_neg hab, charLt] using h₁
      have h₂' : b.toNat < a.toNat := by
        simpa [charsLe, if_neg (Ne.symm hab), charLt] using h₂
      omega

instance : IsTotal String strLe :=
  ⟨fun a b => charsLe_total a.data b.data⟩

instance : IsTrans String strLe :=
  ⟨fun a b c => charsLe_trans a.data b.data c.data⟩

instance : IsAntisymm String strLe :=
  ⟨fun a b h₁ h₂ => String.ext (charsLe_antisymm a.data b.data h₁ h₂)⟩

/-- C1: for every analyzed text, the `/analyze` response field
`needs_immediate_help` is true iff the predicted emotion equals
`"suicidal"` and the confidence is strictly greater than the configured
threshold (default 0.75 when no environment override is set); confidence
0.80 against threshold 0.75 yields true and 0.70 yields false. -/
theorem C1_escalation_rule (emotion : String) (confidence : ℚ) (env : Option ℚ) :
    (needs_immediate_help emotion confidence env = true ↔
      emotion = "suicidal" ∧ suicidalConfidenceThreshold env < confidence)
  ∧ suicidalConfidenceThreshold none = 75 / 100
  ∧ needs_immediate_help "suicidal" (80 / 100) none = true
  ∧ needs_immediate_help "suicidal" (70 / 100) none = false := by
  refine ⟨?_, rfl, ?_, ?_⟩
  · simp [needs_immediate_help, Bool.and_eq_true, beq_iff_eq, decide_eq_true_eq, gt_iff_lt]
  · simp only [needs_immediate_help, suicidalConfidenceThreshold, Option.getD,
      beq_self_eq_true, Bool.true_and, decide_eq_true_eq, gt_iff_lt]
    norm_num
  · simp only [needs_immediate_help, suicidalConfidenceThreshold, Option.getD,
      beq_self_eq_true, Bool.true_and, decide_eq_false_iff_not, gt_iff_lt]
    norm_num

/-- C3: the label vocabulary assigns contiguous ids `0..k-1` to the `k`
distinct label strings in lexicographic (sorted) order — the class list is
sorted, duplicate-free, contains exactly the input's distinct labels, and
depends only on the distinct-label set (any permutation or multiplicity of
the input rows yields the identical assignment); the multiset
`{"sad","happy","sad","suicidal"}` always yields `{happy:0, sad:1, suicidal:2}`. -/
theorem C3_label_vocabulary (l₁ l₂ : List String) (h : ∀ s, s ∈ l₁ ↔ s ∈ l₂) :
    labelEncoderClasses l₁ = labelEncoderClasses l₂
  ∧ (labelEncoderClasses l₁).Sorted strLe
  ∧ (labelEncoderClasses l₁).Nodup
  ∧ (∀ s, s ∈ labelEncoderClasses l₁ ↔ s ∈ l₁)
  ∧ labelEncoderClasses ["sad", "happy", "sad", "suicidal"] = ["happy", "sad", "suicidal"] := by
  refine ⟨?_, List.sorted_insertionSort strLe _, ?_, ?_, by decide⟩
  · apply List.eq_of_perm_of_sorted ?_ (List.sorted_insertionSort strLe _)
      (List.sorted_insertionSort strLe _)
    refine (List.perm_insertionSort strLe _).trans (.trans ?_ (List.perm_insertionSort strLe _).symm)
    exact (List.perm_ext_iff_of_nodup (List.nodup_dedup l₁) (List.nodup_dedup l₂)).mpr
      fun a => by simp only [List.mem_dedup]; exact h a
  · exact (List.perm_insertionSort strLe _).nodup_iff.mpr (List.nodup_dedup l₁)
  · intro s
    exact (List.perm_insertionSort strLe _).mem_iff.trans List.mem_dedup

theorem C3_label_vocabulary_witness :
    labelEncoderClasses ["sad", "happy", "sad", "suicidal"] =
      labelEncoderClasses ["happy", "suicidal", "sad"] :=
  (C3_label_vocabulary ["sad", "happy", "sad", "suicidal"] ["happy", "suicidal", "sad"]
    (fun s => by simp only [List.mem_cons, List.not_mem_nil, or_false]; tauto)).1

theorem persistFlags_getElem (accs : List ℚ) :
    ∀ (b : ℚ) (i : Nat), (persistFlags b accs)[i]? =
      (accs[i]?).map fun a => decide ((accs.take i).foldl max b < a) := by
  induction accs with
  | nil => intro b i; simp [persistFlags]
  | cons a rest ih =>
    intro b i
    cases i with
    | zero => by_cases h : b < a <;> simp [persistFlags, h]
    | succ n =>
      by_cases h : b < a
      · have hm : max b a = a := max_eq_right h.le
        simp [persistFlags, h, List.foldl_cons, hm, ih]
      · have hm : max b a = b := max_eq_left (not_lt.mp h)
        simp [persistFlags, h, List.foldl_cons, hm, ih]

theorem bestAfter_eq_foldl (accs : List ℚ) : ∀ b, bestAfter b accs = accs.foldl max b := by
  induction accs with
  | nil => intro b; rfl
  | cons a rest ih =>
    intro b
    by_cases h : b < a
    · simp [bestAfter, h, ih, max_eq_right h.le]
    · simp [bestAfter, h, ih, max_eq_left (not_lt.mp h)]

/-- C4: the checkpoint selector starts from `best_accuracy = 0` and, after
each epoch, persists iff that epoch's validation accuracy strictly exceeds
the running best (the maximum of 0 and all earlier accuracies; equality
never persists), updating the best to the new value; on
`[0.60, 0.55, 0.60, 0.72]` exactly the first and fourth epochs persist. -/
theorem C4_checkpoint_selector (accs : List ℚ) (i : Nat) :
    (persistFlags 0 accs)[i]? =
      (accs[i]?).map (fun a => decide ((accs.take i).foldl max 0 < a))
  ∧ bestAfter 0 accs = accs.foldl max 0
  ∧ persistFlags 0 [60/100, 55/100, 60/100, 72/100] = [true, false, false, true]
  ∧ (persistFlags 0 [60/100, 55/100, 60/100, 72/100]).count true = 2 := by
  refine ⟨persistFlags_getElem accs 0 i, bestAfter_eq_foldl accs 0, ?_, ?_⟩
  · norm_num [persistFlags]
  · norm_num [persistFlags, List.count_cons]

/-- C7: for every normalized text of at most 3 words, the Augmenter
returns exactly one variant, identical to the input. -/
theorem C7_short_texts (removeIdx : Nat) (draw : Nat → Bool) (text : String)
    (h : (pyWords text).length ≤ 3) :
    augment_text removeIdx draw text = [text] := by
  simp [augment_text, h]

theorem C7_short_texts_witness :
    augment_text 0 (fun _ => false) "i am good" = ["i am good"] :=
  C7_short_texts 0 (fun _ => false) "i am good" (by decide)

/-- C2 as frozen is refuted by a 4-word text: its word count exceeds 3,
yet the Augmenter returns 2 variants, not 3 (the word-drop variant is only
produced when the word count exceeds 4). -/
theorem C2_augmenter_counterexample :
    3 < (pyWords "a b c d").length
  ∧ (augment_text 0 (fun _ => false) "a b c d").length ≠ 3 := by
  decide

/-- C2 (amended): for every normalized text of more than 4 words the
Augmenter returns exactly 3 variants in order (original, word-drop,
adjacent-swap) with the first equal to the input; for exactly 4 words it
returns 2 variants in order (original, adjacent-swap) with the first equal
to the input; in both cases every variant is paired with the input's
unchanged label. -/
theorem C2_augmenter_amended (removeIdx : Nat) (draw : Nat → Bool) (text emotion : String) :
    (4 < (pyWords text).length →
      augment_text removeIdx draw text =
        [text, wordDropVariant removeIdx (pyWords text), adjSwapVariant draw (pyWords text)])
  ∧ ((pyWords text).length = 4 →
      augment_text removeIdx draw text = [text, adjSwapVariant draw (pyWords text)])
  ∧ (∀ p ∈ augmentWithLabel removeIdx draw text emotion, p.2 = emotion) := by
  refine ⟨fun h => ?_, fun h => ?_, fun p hp => ?_⟩
  · have h3 : ¬ (pyWords text).length ≤ 3 := by omega
    have h4 : (pyWords text).length > 4 := by omega
    simp [augment_text, h3, h4]
  · simp [augment_text, h]
  · simp only [augmentWithLabel, List.mem_map] at hp
    obtain ⟨t, -, rfl⟩ := hp
    rfl

theorem C2_augmenter_amended_witness :
    augment_text 1 (fun i => i = 0) "a b c d e" =
      ["a b c d e", wordDropVariant 1 (pyWords "a b c d e"),
        adjSwapVariant (fun i => i = 0) (pyWords "a b c d e")]
  ∧ augment_text 0 (fun _ => false) "a b c d" =
      ["a b c d", adjSwapVariant (fun _ => false) (pyWords "a b c d")]
  ∧ (("b a c d e", "happy") : String × String).2 = "happy" :=
  ⟨(C2_augmenter_amended 1 (fun i => i = 0) "a b c d e" "happy").1 (by decide),
   (C2_augmenter_amended 0 (fun _ => false) "a b c d" "happy").2.1 (by decide),
   (C2_augmenter_amended 1 (fun i => i = 0) "a b c d e" "happy").2.2
     ("b a c d e", "happy") (by decide)⟩

theorem swapAt_perm (l : List α) : ∀ i, List.Perm (swapAt l i) l := by
  induction l with
  | nil => intro i; cases i <;> simp [swapAt]
  | cons a t ih =>
    intro i
    cases i with
    | zero =>
      cases t with
      | nil => simp [swapAt]
      | cons b t' => simpa [swapAt] using List.Perm.swap a b t'
    | succ n => simpa [swapAt] using (ih n).cons a

theorem foldl_swapAt_perm (draw : Nat → Bool) :
    ∀ (idxs : List Nat) (l : List String),
      List.Perm (idxs.foldl (fun acc i => if draw i then swapAt acc i else acc) l) l := by
  intro idxs
  induction idxs with
  | nil => intro l; simp
  | cons i is ih =>
    intro l
    simp only [List.foldl_cons]
    refine (ih _).trans ?_
    by_cases h : draw i
    · simpa [h] using swapAt_perm l i
    · simp [h]

/-- C9: for every input word sequence and every outcome of the random swap
decisions, the adjacent-swap pass yields a permutation of the input words —
the same multiset of words and hence the same word count. -/
theorem C9_adjacent_swap_permutes (draw : Nat → Bool) (words : List String) :
    List.Perm (swapPass draw words) words
  ∧ (swapPass draw words : Multiset String) = (words : Multiset String)
  ∧ (swapPass draw words).length = words.length := by
  have h := foldl_swapAt_perm draw (List.range (words.length - 1)) words
  exact ⟨h, Multiset.coe_eq_coe.mpr h, h.length_eq⟩

theorem lrMultiplier_at_zero (w t : Nat) (hw : 0 < w) : lrMultiplier w t 0 = 0 := by
  simp [lrMultiplier, hw]

theorem lrMultiplier_at_warmup (w t : Nat) (hwt : w < t) : lrMultiplier w t w = 1 := by
  have h1 : (1 : ℚ) ≤ (t : ℚ) - (w : ℚ) := by
    have : (w : ℚ) + 1 ≤ (t : ℚ) := by exact_mod_cast hwt
    linarith
  unfold lrMultiplier
  rw [if_neg (lt_irrefl w), max_eq_right h1, div_self (by linarith)]
  exact max_eq_right zero_le_one

theorem lrMultiplier_at_total (w t : Nat) (hwt : w ≤ t) : lrMultiplier w t t = 0 := by
  unfold lrMultiplier
  rw [if_neg (not_lt.mpr hwt)]
  simp

theorem lrMultiplier_mono (w t a b : Nat) (hwt : w < t) (hab : a ≤ b) (hbw : b ≤ w) :
    lrMultiplier w t a ≤ lrMultiplier w t b := by
  have hc : (0 : ℚ) < max 1 (w : ℚ) := lt_of_lt_of_le one_pos (le_max_left 1 _)
  have key : ∀ n : Nat, n < w → lrMultiplier w t n = (n : ℚ) / max 1 (w : ℚ) := by
    intro n hn
    unfold lrMultiplier
    rw [if_pos hn]
  by_cases hbw' : b < w
  · have haw : a < w := lt_of_le_of_lt hab hbw'
    rw [key a haw, key b hbw']
    have : (a : ℚ) ≤ (b : ℚ) := by exact_mod_cast hab
    exact (div_le_div_iff_of_pos_right hc).mpr this
  · have hb : b = w := le_antisymm hbw (not_lt.mp hbw')
    subst hb
    rw [lrMultiplier_at_warmup b t hwt]
    by_cases haw : a < b
    · rw [key a haw]
      rw [div_le_one hc]
      calc (a : ℚ) ≤ (b : ℚ) := by exact_mod_cast hab
        _ ≤ max 1 (b : ℚ) := le_max_right 1 _
    · have ha : a = b := le_antisymm hab (not_lt.mp haw)
      subst ha
      rw [lrMultiplier_at_warmup a t hwt]

theorem lrMultiplier_anti (w t a b : Nat) (hwa : w ≤ a) (hab : a ≤ b) :
    lrMultiplier w t b ≤ lrMultiplier w t a := by
  have hc : (0 : ℚ) < max 1 ((t : ℚ) - (w : ℚ)) := lt_of_lt_of_le one_pos (le_max_left 1 _)
  unfold lrMultiplier
  rw [if_neg (not_lt.mpr hwa), if_neg (not_lt.mpr (hwa.trans hab))]
  refine max_le_max (le_refl 0) ?_
  have hba : (a : ℚ) ≤ (b : ℚ) := by exact_mod_cast hab
  exact (div_le_div_iff_of_pos_right hc).mpr (by linarith)

theorem trainEpochSteps_eq (n : Nat) (c : StepCounters) :
    trainEpochSteps n c = ⟨c.optSteps + n, c.schedSteps + n⟩ := by
  induction n generalizing c with
  | zero => rfl
  | succ m ih =>
    unfold trainEpochSteps at *
    rw [Function.iterate_succ_apply, ih (batchStep c)]
    simp only [batchStep, StepCounters.mk.injEq]
    omega

/-- C6: the schedule satisfies `warmup_steps = 2 * steps_per_epoch` and
`total_steps = steps_per_epoch * E` with `E = 10` (100 steps/epoch give
warmup 200 and total 1000); the multiplier is 0 at step 0, 1 at
`warmup_steps` and 0 at `total_steps`, is monotonically increasing on
`[0, warmup_steps]` and monotonically decreasing from `warmup_steps` on;
and each loop batch performs exactly one scheduler step right after its
one optimizer step. -/
theorem C6_lr_schedule (s a b n : Nat) (c : StepCounters) (hs : 0 < s) (hab : a ≤ b) :
    warmupSteps s = 2 * s
  ∧ totalSteps s = s * 10
  ∧ warmupSteps 100 = 200
  ∧ totalSteps 100 = 1000
  ∧ lrMultiplier (warmupSteps s) (totalSteps s) 0 = 0
  ∧ lrMultiplier (warmupSteps s) (totalSteps s) (warmupSteps s) = 1
  ∧ lrMultiplier (warmupSteps s) (totalSteps s) (totalSteps s) = 0
  ∧ (b ≤ warmupSteps s →
      lrMultiplier (warmupSteps s) (totalSteps s) a ≤
        lrMultiplier (warmupSteps s) (totalSteps s) b)
  ∧ (warmupSteps s ≤ a →
      lrMultiplier (warmupSteps s) (totalSteps s) b ≤
        lrMultiplier (warmupSteps s) (totalSteps s) a)
  ∧ trainEpochSteps n c = ⟨c.optSteps + n, c.schedSteps + n⟩ := by
  have hwt : warmupSteps s < totalSteps s := by
    unfold warmupSteps totalSteps NUM_EPOCHS
    omega
  have hw : 0 < warmupSteps s := by
    unfold warmupSteps
    omega
  exact ⟨by unfold warmupSteps; omega, rfl, rfl, rfl,
    lrMultiplier_at_zero _ _ hw,
    lrMultiplier_at_warmup _ _ hwt,
    lrMultiplier_at_total _ _ hwt.le,
    fun hbw => lrMultiplier_mono _ _ a b hwt hab hbw,
    fun hwa => lrMultiplier_anti _ _ a b hwa hab,
    trainEpochSteps_eq n c⟩

theorem C6_lr_schedule_witness :
    lrMultiplier (warmupSteps 100) (totalSteps 100) 50 ≤
      lrMultiplier (warmupSteps 100) (totalSteps 100) 200
  ∧ trainEpochSteps 3 ⟨0, 0⟩ = ⟨0 + 3, 0 + 3⟩ := by
  obtain ⟨-, -, -, -, -, -, -, hmono, -, hsteps⟩ :=
    C6_lr_schedule 100 50 200 3 ⟨0, 0⟩ (by decide) (by decide)
  exact ⟨hmono (by decide), hsteps⟩

theorem dropna_filter_complete (rows : List RawRow) :
    dropna (rows.filter fun r => r.text.isSome && r.emotion.isSome) = dropna rows := by
  induction rows with
  | nil => rfl
  | cons r rest ih =>
    simp only [dropna] at ih ⊢
    cases ht : r.text <;> cases he : r.emotion <;>
      simp [List.filter_cons, ht, he, ih, List.filterMap_cons]

/-- C8: rows missing the text or emotion field are dropped before
normalization (the pipeline's output is unchanged when the incomplete rows
are removed up front), and when a required column is absent the run exits
with code 1 having written no artifact: no label vocabulary, no
checkpoint, no config file. -/
theorem C8_fatal_validation (normalize : String → String) (rngRemove : Nat → Nat)
    (rngDraw : Nat → Nat → Bool) (ds : RawDataset)
    (trainRest : List (String × String) → Nat × Artifacts) :
    (ds.hasTextCol = false ∨ ds.hasEmotionCol = false →
      runTraining normalize rngRemove rngDraw ds trainRest = (1, noArtifacts))
  ∧ noArtifacts.labelClasses = none
  ∧ noArtifacts.checkpointSaves = 0
  ∧ noArtifacts.configWritten = false
  ∧ load_and_preprocess_data normalize rngRemove rngDraw ds =
      load_and_preprocess_data normalize rngRemove rngDraw
        { ds with rows := ds.rows.filter fun r => r.text.isSome && r.emotion.isSome } := by
  refine ⟨fun h => ?_, rfl, rfl, rfl, ?_⟩
  · unfold runTraining load_and_preprocess_data
    rcases h with h | h <;> rw [h] <;> simp
  · unfold load_and_preprocess_data
    dsimp only
    rw [dropna_filter_complete]

theorem C8_fatal_validation_witness :
    runTraining id (fun _ => 0) (fun _ _ => false) ⟨false, true, []⟩
      (fun _ => (0, noArtifacts)) = (1, noArtifacts) :=
  (C8_fatal_validation id (fun _ => 0) (fun _ _ => false) ⟨false, true, []⟩
    (fun _ => (0, noArtifacts))).1 (Or.inl rfl)

theorem mem_group_params {m : BertModel} {needle : String} {lr wd : ℚ} {p : NamedParam}
    (h : p ∈ (groupFor m needle lr wd).params) : pyIn needle p.name = true :=
  (List.mem_filter.mp h).2

theorem frozen_params_match_no_filter :
    ∀ p ∈ namedParameters bertTuned, p.requires_grad = false →
      pyIn "classifier" p.name = false ∧ pyIn "layer.11" p.name = false ∧
        pyIn "layer.10" p.name = false := by
  decide

/-- C5: after the fine-tuning policy, every parameter of the embedding
sub-module and of blocks 0-9 is frozen, every parameter of blocks 10-11
and of the classification head is trainable, and exactly three optimizer
groups exist — the classification head at lr 2e-4, block 11 at lr 1e-4,
block 10 at lr 5e-5, each with weight decay 0.01 — while frozen parameters
belong to none of the groups. -/
theorem C5_fine_tuning_policy :
    (∀ p ∈ bertTuned.embeddings, p.requires_grad = false)
  ∧ (∀ l ∈ bertTuned.layers.take 10, ∀ p ∈ l, p.requires_grad = false)
  ∧ (∀ l ∈ bertTuned.layers.drop 10, ∀ p ∈ l, p.requires_grad = true)
  ∧ (∀ p ∈ bertTuned.classifier, p.requires_grad = true)
  ∧ bertTuned.layers.length = 12
  ∧ (optimizerGroupedParameters bertTuned).length = 3
  ∧ (optimizerGroupedParameters bertTuned).map ParamGroup.lr =
      [2 / 10000, 1 / 10000, 5 / 100000]
  ∧ (optimizerGroupedParameters bertTuned).map ParamGroup.weight_decay =
      [1 / 100, 1 / 100, 1 / 100]
  ∧ (optimizerGroupedParameters bertTuned).map ParamGroup.params =
      [bertTuned.classifier, bertTuned.layers.getD 11 [], bertTuned.layers.getD 10 []]
  ∧ (∀ p ∈ namedParameters bertTuned, p.requires_grad = false →
      ∀ g ∈ optimizerGroupedParameters bertTuned, p ∉ g.params) := by
  refine ⟨by decide, by decide, by decide, by decide, by decide, rfl, rfl, rfl, by decide, ?_⟩
  intro p hp hgrad g hg hmem
  obtain ⟨h1, h2, h3⟩ := frozen_params_match_no_filter p hp hgrad
  simp only [optimizerGroupedParameters, List.mem_cons, List.not_mem_nil, or_false] at hg
  rcases hg with rfl | rfl | rfl
  · rw [mem_group_params hmem] at h1
    exact Bool.true_eq_false.mp h1
  · rw [mem_group_params hmem] at h2
    exact Bool.true_eq_false.mp h2
  · rw [mem_group_params hmem] at h3
    exact Bool.true_eq_false.mp h3

theorem pooler_params_match_no_filter :
    ∀ p ∈ bertTuned.pooler,
      pyIn "classifier" p.name = false ∧ pyIn "layer.11" p.name = false ∧
        pyIn "layer.10" p.name = false := by
  decide

/-- C10: after the fine-tuning policy, the pooler sub-module's parameters
are still trainable (never frozen), yet their names match none of the
three optimizer group filters, so they belong to no learning-rate group
and are never updated by the optimizer. -/
theorem C10_pooler_orphaned :
    (∀ p ∈ bertTuned.pooler, p.requires_grad = true)
  ∧ (∀ p ∈ bertTuned.pooler,
      pyIn "classifier" p.name = false ∧ pyIn "layer.11" p.name = false ∧
        pyIn "layer.10" p.name = false)
  ∧ (∀ p ∈ bertTuned.pooler, ∀ g ∈ optimizerGroupedParameters bertTuned, p ∉ g.params) := by
  refine ⟨by decide, pooler_params_match_no_filter, ?_⟩
  intro p hp g hg hmem
  obtain ⟨h1, h2, h3⟩ := pooler_params_match_no_filter p hp
  simp only [optimizerGroupedParameters, List.mem_cons, List.not_mem_nil, or_false] at hg
  rcases hg with rfl | rfl | rfl
  · rw [mem_group_params hmem] at h1
    exact Bool.true_eq_false.mp h1
  · rw [mem_group_params hmem] at h2
    exact Bool.true_eq_false.mp h2
  · rw [mem_group_params hmem] at h3
    exact Bool.true_eq_false.mp h3

end SentimentService
